import Mathlib

/-!
Shallow embedding of the personal-finance tracker (`src/app.py`).

Amounts are modelled as exact rationals (`ℚ`); Python dicts whose keys are
account names are modelled as association lists `List (String × ℚ)` with
insertion order preserved and unique keys (a Python dict can never hold a
duplicate key).  Balance updates `balances[k] += amt` are modelled by
rewriting every pair whose key matches, which agrees with the dict update
whenever keys are unique.
-/

namespace FinanceTracker

/-- The four transaction types appearing in `app.py`. -/
inductive TType where
  | Income
  | Expense
  | Transfer
  | Investment
deriving DecidableEq

/-- One ledger entry.  In `app.py` a transaction is a dict whose optional
keys (`category`, `bucket`, `from_account`, `to_account`, `desc`, `broker`)
are present or absent depending on the transaction type; absent keys are
modelled with `Option`. -/
structure Transaction where
  date : String
  type : TType
  amount : ℚ
  category : Option String
  bucket : Option String
  from_account : Option String
  to_account : Option String
  desc : Option String
  broker : Option String
deriving DecidableEq

/-- A balance map: a Python dict from account name to amount, as an
insertion-ordered association list. -/
abbrev BalMap := List (String × ℚ)

/-- `acc in balances` for the balance dict. -/
def hasKey (bal : BalMap) (a : String) : Bool :=
  bal.any (fun p => decide (p.1 = a))

/-- `balances[a]` (with default `0` when the key is absent; the code only
reads keys that are present). -/
def lookupBal : BalMap → String → ℚ
  | [], _ => 0
  | p :: rest, a => if p.1 = a then p.2 else lookupBal rest a

/-- Pointwise update of one dict entry: `balances[a] += d` on the pair
whose key is `a`. -/
def updEntry (a : String) (d : ℚ) (p : String × ℚ) : String × ℚ :=
  if p.1 = a then (p.1, p.2 + d) else p

/-- Guarded update `if a in balances: balances[a] += d`, the single
operation every branch of the transaction fold performs. -/
def upd (bal : BalMap) (a : String) (d : ℚ) : BalMap :=
  if hasKey bal a then bal.map (updEntry a d) else bal

/-- One optional leg of a transaction: apply the guarded update when the
account reference is present in the record, do nothing otherwise. -/
def creditLeg (bal : BalMap) (acc : Option String) (d : ℚ) : BalMap :=
  match acc with
  | some a => upd bal a d
  | none => bal

/-- The body of the fold of `get_current_balances` (`app.py` lines 66-76):
Income credits `to_account`, Expense debits `from_account`, Transfer debits
`from_account` and credits `to_account`, Investment debits `from_account`,
each leg only when the referenced account is a key of the balance dict. -/
def applyTx (bal : BalMap) (t : Transaction) : BalMap :=
  match t.type with
  | TType.Income => creditLeg bal t.to_account t.amount
  | TType.Expense => creditLeg bal t.from_account (-t.amount)
  | TType.Transfer => creditLeg (creditLeg bal t.from_account (-t.amount)) t.to_account t.amount
  | TType.Investment => creditLeg bal t.from_account (-t.amount)

/-- `if acc not in balances: balances[acc] = 0.0` — a Python dict assignment
to a fresh key appends the pair at the end of the insertion order. -/
def addDefault (bal : BalMap) (acc : String) : BalMap :=
  if hasKey bal acc then bal else bal ++ [(acc, 0)]

/-- The initial balance dict of `get_current_balances`: a copy of
`initial_balances`, then every configured account not already present is
defaulted to `0`. -/
def initBalances (initial_balances : BalMap) (accounts : List String) : BalMap :=
  accounts.foldl addDefault initial_balances

/-- `get_current_balances` (`app.py` lines 61-78), with the global
`data` fields passed explicitly as in the spec's contract
`compute_balances(accounts, initial_balances, transactions)`. -/
def get_current_balances (accounts : List String) (initial_balances : BalMap)
    (transactions : List Transaction) : BalMap :=
  transactions.foldl applyTx (initBalances initial_balances accounts)

/-- The account an applied transaction debits (`from_account` for Expense,
Transfer and Investment; Income debits nothing). -/
def debitAcc (t : Transaction) : Option String :=
  match t.type with
  | TType.Income => none
  | _ => t.from_account

/-- The account an applied transaction credits (`to_account` for Income and
Transfer; Expense and Investment credit nothing). -/
def creditAcc (t : Transaction) : Option String :=
  match t.type with
  | TType.Income => t.to_account
  | TType.Transfer => t.to_account
  | _ => none

/-- Signed contribution of one transaction to one account's balance,
assuming that account is a key of the balance dict. -/
def contrib (t : Transaction) (a : String) : ℚ :=
  (if creditAcc t = some a then t.amount else 0)
    - (if debitAcc t = some a then t.amount else 0)

/-- Sum of all balances in the dict (`sum(balances.values())`). -/
def sumBal (bal : BalMap) : ℚ :=
  (bal.map Prod.snd).sum

-- ### Aggregation views (Dashboard)

/-- Dashboard total for one transaction type
(`df[df['type'] == T]['amount'].sum()`, with `0` for an empty frame). -/
def total_by_type (tt : TType) (transactions : List Transaction) : ℚ :=
  ((transactions.filter (fun t => decide (t.type = tt))).map Transaction.amount).sum

/-- The 50-30-20 budget of one bucket (`budget = total_inc * pct`,
`app.py` line 161). -/
def budget (total_inc : ℚ) (pct : ℚ) : ℚ :=
  total_inc * pct

/-- The bucket weights of the Dashboard budget section
(`rules = {"Needs": 0.50, "Wants": 0.30, "Savings": 0.20}`). -/
def rules : List (String × ℚ) :=
  [("Needs", 0.50), ("Wants", 0.30), ("Savings", 0.20)]

-- ### SIPs (recurring investments)

/-- A recurring investment, as stored in `data['sips']`. -/
structure SIP where
  broker : String
  fund_name : String
  amount : ℚ
  day : Nat
  account : String
  last_paid : String
deriving DecidableEq

/-- Python's `s.startswith(p)` on the strings the app compares. -/
def startswith (s p : String) : Bool :=
  p.data.isPrefixOf s.data

/-- `is_paid = last_paid.startswith(current_month)` (`app.py` line 262). -/
def is_paid (current_month : String) (sip : SIP) : Bool :=
  startswith sip.last_paid current_month

/-- A SIP shows the "Pay Now" button exactly when it is not paid for the
current month. -/
def is_due (current_month : String) (sip : SIP) : Bool :=
  !is_paid current_month sip

-- ### Trading log

/-- One entry of `data['trading_pnl']`. -/
structure TradingEntry where
  date : String
  amount : ℚ
  notes : String
  broker : String
deriving DecidableEq

/-- The record built by the Commodity Trading "Save P&L" form
(`app.py` lines 214-215): the signed amount is the entered amount for
"Profit 🟢" and its negation otherwise, and the broker is fixed. -/
def mkTradeEntry (date : String) (pnl_type : String) (amount : ℚ)
    (notes : String) : TradingEntry :=
  { date := date
    amount := if pnl_type = "Profit 🟢" then amount else -amount
    notes := notes
    broker := "Zerodha" }

-- ### The ledger document and persistence

/-- The root aggregate `data`. -/
structure Document where
  transactions : List Transaction
  accounts : List String
  initial_balances : BalMap
  sips : List SIP
  trading_pnl : List TradingEntry
deriving DecidableEq

/-- The hardcoded `default` document of `load_data`. -/
def default_doc : Document :=
  { transactions := []
    accounts := ["HDFC", "SBI", "Credit Card", "Cash"]
    initial_balances := []
    sips := []
    trading_pnl := [] }

/-- The parsed content of `finance_data.json`: a JSON object in which any
of the five known keys may be missing (absent keys are `none`).  Unknown
extra keys play no role in any claim and are not modelled. -/
structure StoredDoc where
  transactions : Option (List Transaction)
  accounts : Option (List String)
  initial_balances : Option BalMap
  sips : Option (List SIP)
  trading_pnl : Option (List TradingEntry)

/-- The state of the data file as `load_data` can find it. -/
inductive FileState where
  | absent
  | corrupt
  | stored (s : StoredDoc)

/-- `load_data` (`app.py` lines 32-51): missing file or parse failure falls
back to the default document; otherwise every missing key is filled from
the default. -/
def load_data (fs : FileState) : Document :=
  match fs with
  | FileState.absent => default_doc
  | FileState.corrupt => default_doc
  | FileState.stored s =>
      { transactions := s.transactions.getD default_doc.transactions
        accounts := s.accounts.getD default_doc.accounts
        initial_balances := s.initial_balances.getD default_doc.initial_balances
        sips := s.sips.getD default_doc.sips
        trading_pnl := s.trading_pnl.getD default_doc.trading_pnl }

/-- `save_data` (`app.py` lines 53-55): `json.dump(data, f)` writes the
whole document, so every key is present in the stored object. -/
def save_data (d : Document) : FileState :=
  FileState.stored
    { transactions := some d.transactions
      accounts := some d.accounts
      initial_balances := some d.initial_balances
      sips := some d.sips
      trading_pnl := some d.trading_pnl }

/-- Outcome of the file write performed by `save_data`. -/
inductive WriteOutcome where
  | ok
  | fail (msg : String)

/-- `save_data` with a fallible write: the function body has no
`try`/`except`, so a failing write surfaces as the raised error. -/
def save_data_w (w : WriteOutcome) (d : Document) : Except String FileState :=
  match w with
  | WriteOutcome.ok => Except.ok (save_data d)
  | WriteOutcome.fail msg => Except.error msg

-- ### Mutation operations

/-- The "Save P&L" mutation (`app.py` lines 213-216): append the new entry,
then persist. -/
def savePnl (d : Document) (date pnl_type : String) (amount : ℚ)
    (notes : String) : Document :=
  { d with trading_pnl := d.trading_pnl ++ [mkTradeEntry date pnl_type amount notes] }

/-- The "Save P&L" mutation together with its persist call, under a given
write outcome: the in-memory document is mutated first and is not rolled
back when the write fails. -/
def savePnl_and_persist (w : WriteOutcome) (d : Document) (date pnl_type : String)
    (amount : ℚ) (notes : String) : Document × Except String FileState :=
  let d' := savePnl d date pnl_type amount notes
  (d', save_data_w w d')

/-- The transaction appended by the SIP "Pay Now" button
(`app.py` lines 271-274). -/
def sipPaymentTx (today : String) (sip : SIP) : Transaction :=
  { date := today
    type := TType.Investment
    category := some "Mutual Fund"
    bucket := some "Savings"
    broker := some sip.broker
    desc := some ("SIP: " ++ sip.fund_name)
    amount := sip.amount
    from_account := some sip.account
    to_account := none }

/-- The "Pay Now" mutation (`app.py` lines 270-277): append the investment
transaction and stamp `last_paid` with today's date. -/
def paySip (d : Document) (i : Nat) (today : String) : Document :=
  match d.sips.get? i with
  | none => d
  | some sip =>
      { d with
        transactions := d.transactions ++ [sipPaymentTx today sip]
        sips := d.sips.set i { sip with last_paid := today } }

/-- The Manage Accounts "Add" button (`app.py` lines 363-366): append the
name only when it is non-empty (Python truthiness) and not already
present. -/
def addAccount (d : Document) (new : String) : Document :=
  if new ≠ "" ∧ new ∉ d.accounts then
    { d with accounts := d.accounts ++ [new] }
  else d

/-- The transaction built by the Add Transaction "Income" form
(`app.py` lines 336-337). -/
def mkIncomeTx (date src acc : String) (amt : ℚ) : Transaction :=
  { date := date, type := TType.Income, amount := amt, category := some src,
    bucket := none, from_account := none, to_account := some acc,
    desc := some src, broker := none }

/-- The transaction built by the Add Transaction "Expense" form
(`app.py` lines 324-326). -/
def mkExpenseTx (date cat bucket acc : String) (amt : ℚ) (desc : String) : Transaction :=
  { date := date, type := TType.Expense, amount := amt, category := some cat,
    bucket := some bucket, from_account := some acc, to_account := none,
    desc := some desc, broker := none }

/-- The transaction built by the Add Transaction "Transfer" form
(`app.py` lines 348-349). -/
def mkTransferTx (date : String) (amt : ℚ) (f t : String) : Transaction :=
  { date := date, type := TType.Transfer, amount := amt, category := none,
    bucket := none, from_account := some f, to_account := some t,
    desc := some "Transfer", broker := none }

-- ### Concrete inputs used by the example scenarios

/-- The `Income 50 → A` entry of the spec's scenario. -/
def incomeTxA : Transaction :=
  mkIncomeTx "2024-01-01" "Salary" "A" 50

/-- The `Expense 30 from A` entry of the spec's scenario. -/
def expenseTxA : Transaction :=
  mkExpenseTx "2024-01-02" "Rent" "Needs" "A" 30 "Rent"

/-- A sample SIP that has never been paid. -/
def sip0 : SIP :=
  { broker := "Zerodha", fund_name := "Nifty 50 Index", amount := 500,
    day := 5, account := "HDFC", last_paid := "" }

/-- A sample document holding `sip0`. -/
def doc0 : Document :=
  { default_doc with sips := [sip0] }

-- ### Basic lemmas on the balance map

theorem hasKey_iff_mem {bal : BalMap} {a : String} :
    hasKey bal a = true ↔ a ∈ bal.map Prod.fst := by
  simp [hasKey, List.any_eq_true, List.mem_map]

theorem fst_updEntry (a : String) (d : ℚ) (p : String × ℚ) :
    (updEntry a d p).1 = p.1 := by
  unfold updEntry; split <;> rfl

theorem keys_map_updEntry (bal : BalMap) (a : String) (d : ℚ) :
    (bal.map (updEntry a d)).map Prod.fst = bal.map Prod.fst := by
  rw [List.map_map]
  exact List.map_congr_left (fun p _ => fst_updEntry a d p)

theorem hasKey_map_updEntry (bal : BalMap) (a b : String) (d : ℚ) :
    hasKey (bal.map (updEntry a d)) b = hasKey bal b := by
  unfold hasKey
  rw [List.any_map]
  congr 1
  funext p
  simp [Function.comp, fst_updEntry]

theorem hasKey_upd (bal : BalMap) (a b : String) (d : ℚ) :
    hasKey (upd bal a d) b = hasKey bal b := by
  unfold upd
  split
  · exact hasKey_map_updEntry bal a b d
  · rfl

theorem hasKey_creditLeg (bal : BalMap) (o : Option String) (b : String) (d : ℚ) :
    hasKey (creditLeg bal o d) b = hasKey bal b := by
  cases o with
  | none => rfl
  | some a => exact hasKey_upd bal a b d

theorem hasKey_applyTx (bal : BalMap) (t : Transaction) (b : String) :
    hasKey (applyTx bal t) b = hasKey bal b := by
  unfold applyTx
  cases t.type <;> simp only [hasKey_creditLeg]

-- ### Lookup lemmas

theorem lookup_map_updEntry_self (bal : BalMap) (a : String) (d : ℚ)
    (h : hasKey bal a = true) :
    lookupBal (bal.map (updEntry a d)) a = lookupBal bal a + d := by
  induction bal with
  | nil => simp [hasKey] at h
  | cons p rest ih =>
    by_cases hp : p.1 = a
    · simp [lookupBal, updEntry, hp]
    · have h' : hasKey rest a = true := by
        simpa [hasKey, List.any_cons, hp] using h
      simp [lookupBal, updEntry, hp, ih h']

theorem lookup_map_updEntry_other (bal : BalMap) (a b : String) (d : ℚ)
    (hba : b ≠ a) :
    lookupBal (bal.map (updEntry a d)) b = lookupBal bal b := by
  have hab : a ≠ b := fun hh => hba hh.symm
  induction bal with
  | nil => rfl
  | cons p rest ih =>
    by_cases hp : p.1 = b
    · have hpa : p.1 ≠ a := by rw [hp]; exact hba
      simp [lookupBal, updEntry, hp, hpa, hba, hab]
    · by_cases hpa : p.1 = a
      · simp [lookupBal, updEntry, hp, hpa, hba, hab, ih]
      · simp [lookupBal, updEntry, hp, hpa, hba, hab, ih]

theorem lookup_upd_self (bal : BalMap) (a : String) (d : ℚ)
    (h : hasKey bal a = true) :
    lookupBal (upd bal a d) a = lookupBal bal a + d := by
  unfold upd
  rw [if_pos h]
  exact lookup_map_updEntry_self bal a d h

theorem lookup_upd_other (bal : BalMap) (a b : String) (d : ℚ) (hba : b ≠ a) :
    lookupBal (upd bal a d) b = lookupBal bal b := by
  unfold upd
  split
  · exact lookup_map_updEntry_other bal a b d hba
  · rfl

theorem lookup_creditLeg (bal : BalMap) (o : Option String) (b : String) (d : ℚ)
    (h : hasKey bal b = true) :
    lookupBal (creditLeg bal o d) b
      = lookupBal bal b + (if o = some b then d else 0) := by
  cases o with
  | none => simp [creditLeg]
  | some a =>
    by_cases hab : a = b
    · subst hab
      simp [creditLeg, lookup_upd_self bal a d h]
    · have hba : b ≠ a := fun hh => hab hh.symm
      simp [creditLeg, lookup_upd_other bal a b d hba, Option.some_inj, hab]

/-- Normal form of `applyTx`: a debit leg followed by a credit leg. -/
theorem applyTx_eq (bal : BalMap) (t : Transaction) :
    applyTx bal t = creditLeg (creditLeg bal (debitAcc t) (-t.amount)) (creditAcc t) t.amount := by
  unfold applyTx debitAcc creditAcc
  cases t.type <;> simp [creditLeg]

theorem lookup_applyTx (bal : BalMap) (t : Transaction) (b : String)
    (h : hasKey bal b = true) :
    lookupBal (applyTx bal t) b = lookupBal bal b + contrib t b := by
  rw [applyTx_eq]
  have h1 : hasKey (creditLeg bal (debitAcc t) (-t.amount)) b = true := by
    rw [hasKey_creditLeg]; exact h
  rw [lookup_creditLeg _ _ _ _ h1, lookup_creditLeg _ _ _ _ h, contrib]
  by_cases hc : creditAcc t = some b <;> by_cases hd : debitAcc t = some b <;>
    simp [hc, hd, sub_eq_add_neg, add_assoc, add_comm]

/-- Folding the transaction list adds, per account present in the starting
dict, the sum of the signed contributions of the transactions. -/
theorem lookup_foldl_applyTx (txs : List Transaction) (bal : BalMap) (b : String)
    (h : hasKey bal b = true) :
    lookupBal (txs.foldl applyTx bal) b
      = lookupBal bal b + (txs.map (fun t => contrib t b)).sum := by
  induction txs generalizing bal with
  | nil => simp
  | cons t rest ih =>
    have h' : hasKey (applyTx bal t) b = true := by
      rw [hasKey_applyTx]; exact h
    rw [List.foldl_cons, ih (applyTx bal t) h', lookup_applyTx bal t b h,
      List.map_cons, List.sum_cons, add_assoc]

-- ### Commutation of balance updates

theorem updEntry_comm (a1 a2 : String) (d1 d2 : ℚ) (p : String × ℚ) :
    updEntry a2 d2 (updEntry a1 d1 p) = updEntry a1 d1 (updEntry a2 d2 p) := by
  unfold updEntry
  by_cases h1 : p.1 = a1 <;> by_cases h2 : p.1 = a2
  · have h12 : a1 = a2 := h1.symm.trans h2
    subst h12
    simp [h1, add_right_comm]
  · have h12 : ¬a1 = a2 := fun e => h2 (h1.trans e)
    simp [h1, h2, h12]
  · have h21 : ¬a2 = a1 := fun e => h1 (h2.trans e)
    simp [h1, h2, h21]
  · simp [h1, h2]

theorem upd_pos (bal : BalMap) (a : String) (d : ℚ) (h : hasKey bal a = true) :
    upd bal a d = bal.map (updEntry a d) := by
  unfold upd; rw [if_pos h]

theorem upd_neg (bal : BalMap) (a : String) (d : ℚ) (h : ¬hasKey bal a = true) :
    upd bal a d = bal := by
  unfold upd; rw [if_neg h]

theorem upd_comm (bal : BalMap) (a1 a2 : String) (d1 d2 : ℚ) :
    upd (upd bal a1 d1) a2 d2 = upd (upd bal a2 d2) a1 d1 := by
  by_cases g1 : hasKey bal a1 = true <;> by_cases g2 : hasKey bal a2 = true
  · rw [upd_pos bal a1 d1 g1, upd_pos bal a2 d2 g2,
      upd_pos _ a2 d2 (by rw [hasKey_map_updEntry]; exact g2),
      upd_pos _ a1 d1 (by rw [hasKey_map_updEntry]; exact g1),
      List.map_map, List.map_map]
    congr 1
    funext p
    exact updEntry_comm a1 a2 d1 d2 p
  · rw [upd_pos bal a1 d1 g1, upd_neg bal a2 d2 g2,
      upd_neg _ a2 d2 (by rw [hasKey_map_updEntry]; exact g2),
      upd_pos bal a1 d1 g1]
  · rw [upd_neg bal a1 d1 g1, upd_pos bal a2 d2 g2,
      upd_neg _ a1 d1 (by rw [hasKey_map_updEntry]; exact g1)]
  · rw [upd_neg bal a1 d1 g1, upd_neg bal a2 d2 g2, upd_neg bal a1 d1 g1]

theorem creditLeg_comm (bal : BalMap) (o1 : Option String) (d1 : ℚ)
    (o2 : Option String) (d2 : ℚ) :
    creditLeg (creditLeg bal o1 d1) o2 d2 = creditLeg (creditLeg bal o2 d2) o1 d1 := by
  cases o1 with
  | none => rfl
  | some a1 =>
    cases o2 with
    | none => rfl
    | some a2 => exact upd_comm bal a1 a2 d1 d2

theorem applyTx_comm (bal : BalMap) (t1 t2 : Transaction) :
    applyTx (applyTx bal t1) t2 = applyTx (applyTx bal t2) t1 := by
  rw [applyTx_eq bal t1, applyTx_eq _ t2, applyTx_eq bal t2, applyTx_eq _ t1]
  rw [creditLeg_comm (creditLeg bal (debitAcc t1) (-t1.amount)) (creditAcc t1)
    t1.amount (debitAcc t2) (-t2.amount)]
  rw [creditLeg_comm bal (debitAcc t1) (-t1.amount) (debitAcc t2) (-t2.amount)]
  rw [creditLeg_comm (creditLeg (creditLeg bal (debitAcc t2) (-t2.amount))
    (debitAcc t1) (-t1.amount)) (creditAcc t1) t1.amount (creditAcc t2) t2.amount]
  rw [creditLeg_comm (creditLeg bal (debitAcc t2) (-t2.amount)) (debitAcc t1)
    (-t1.amount) (creditAcc t2) t2.amount]

/-- Folding commuting transaction updates is invariant under permutation of
the transaction list. -/
theorem foldl_applyTx_perm {txs1 txs2 : List Transaction} (h : txs1.Perm txs2) :
    ∀ bal : BalMap, txs1.foldl applyTx bal = txs2.foldl applyTx bal := by
  induction h with
  | nil => intro bal; rfl
  | cons x _ ih => intro bal; rw [List.foldl_cons, List.foldl_cons]; exact ih _
  | swap x y l =>
    intro bal
    rw [List.foldl_cons, List.foldl_cons, List.foldl_cons, List.foldl_cons,
      applyTx_comm]
  | trans _ _ ih1 ih2 => intro bal; rw [ih1 bal, ih2 bal]

-- ### Sum of balances under an update (unique keys)

theorem map_updEntry_id (bal : BalMap) (a : String) (d : ℚ)
    (h : a ∉ bal.map Prod.fst) : bal.map (updEntry a d) = bal := by
  have hpt : ∀ p ∈ bal, updEntry a d p = p := by
    intro p hp
    have hne : ¬p.1 = a := fun e => h (e ▸ List.mem_map_of_mem Prod.fst hp)
    simp [updEntry, hne]
  conv_rhs => rw [← List.map_id bal]
  exact List.map_congr_left hpt

theorem sumBal_cons (p : String × ℚ) (rest : BalMap) :
    sumBal (p :: rest) = p.2 + sumBal rest := by
  simp [sumBal]

theorem sumBal_map_updEntry (bal : BalMap) (a : String) (d : ℚ)
    (hnd : (bal.map Prod.fst).Nodup) (h : hasKey bal a = true) :
    sumBal (bal.map (updEntry a d)) = sumBal bal + d := by
  induction bal with
  | nil => simp [hasKey] at h
  | cons p rest ih =>
    rw [List.map_cons] at hnd
    have hhead : p.1 ∉ rest.map Prod.fst := (List.nodup_cons.mp hnd).1
    have hnd' : (rest.map Prod.fst).Nodup := (List.nodup_cons.mp hnd).2
    by_cases hp : p.1 = a
    · have hrest : a ∉ rest.map Prod.fst := hp ▸ hhead
      rw [List.map_cons, sumBal_cons, sumBal_cons, map_updEntry_id rest a d hrest]
      simp [updEntry, hp]
      ring
    · have h' : hasKey rest a = true := by
        simpa [hasKey, List.any_cons, hp] using h
      rw [List.map_cons, sumBal_cons, sumBal_cons, ih hnd' h']
      simp [updEntry, hp]
      ring

theorem sumBal_upd (bal : BalMap) (a : String) (d : ℚ)
    (hnd : (bal.map Prod.fst).Nodup) (h : hasKey bal a = true) :
    sumBal (upd bal a d) = sumBal bal + d := by
  rw [upd_pos bal a d h]
  exact sumBal_map_updEntry bal a d hnd h

-- ### The initial balance dict

theorem lookup_append_zero (bal : BalMap) (acc a : String) :
    lookupBal (bal ++ [(acc, 0)]) a = lookupBal bal a := by
  induction bal with
  | nil =>
    by_cases h : acc = a <;> simp [lookupBal, h]
  | cons p rest ih =>
    by_cases hp : p.1 = a <;> simp [lookupBal, hp, ih]

theorem lookup_addDefault (bal : BalMap) (acc a : String) :
    lookupBal (addDefault bal acc) a = lookupBal bal a := by
  unfold addDefault
  split
  · rfl
  · exact lookup_append_zero bal acc a

/-- The defaulting loop never changes the value at any key: a missing key
reads as the default `0` it is assigned. -/
theorem lookup_initBalances (initial : BalMap) (accounts : List String) (a : String) :
    lookupBal (initBalances initial accounts) a = lookupBal initial a := by
  unfold initBalances
  induction accounts generalizing initial with
  | nil => rfl
  | cons acc rest ih =>
    rw [List.foldl_cons, ih (addDefault initial acc), lookup_addDefault]

theorem hasKey_append_single (bal : BalMap) (acc a : String) :
    hasKey (bal ++ [(acc, (0 : ℚ))]) a = (hasKey bal a || decide (acc = a)) := by
  simp [hasKey, List.any_append, List.any_cons]

theorem hasKey_addDefault (bal : BalMap) (acc a : String) :
    hasKey (addDefault bal acc) a = (hasKey bal a || decide (acc = a)) := by
  unfold addDefault
  split
  · rename_i hg
    by_cases e : acc = a
    · subst e; simp [hg]
    · simp [e]
  · exact hasKey_append_single bal acc a

/-- The keys of the starting dict are the keys of `initial_balances`
together with the configured accounts. -/
theorem hasKey_initBalances (initial : BalMap) (accounts : List String) (a : String) :
    hasKey (initBalances initial accounts) a
      = (hasKey initial a || decide (a ∈ accounts)) := by
  unfold initBalances
  induction accounts generalizing initial with
  | nil => simp
  | cons acc rest ih =>
    rw [List.foldl_cons, ih (addDefault initial acc), hasKey_addDefault]
    by_cases e : acc = a <;> by_cases m : a ∈ rest
    · subst e; simp [m, List.mem_cons]
    · subst e; simp [m, List.mem_cons]
    · have e' : ¬a = acc := fun hh => e hh.symm
      simp [e, e', m, List.mem_cons]
    · have e' : ¬a = acc := fun hh => e hh.symm
      simp [e, e', m, List.mem_cons]

theorem nodup_keys_addDefault (bal : BalMap) (acc : String)
    (h : (bal.map Prod.fst).Nodup) : ((addDefault bal acc).map Prod.fst).Nodup := by
  unfold addDefault
  split
  · exact h
  · rename_i hg
    have hnm : acc ∉ bal.map Prod.fst := fun hm => hg (hasKey_iff_mem.mpr hm)
    rw [List.map_append]
    simp [List.nodup_append, h, hnm]

theorem nodup_keys_initBalances (initial : BalMap) (accounts : List String)
    (h : (initial.map Prod.fst).Nodup) :
    ((initBalances initial accounts).map Prod.fst).Nodup := by
  unfold initBalances
  induction accounts generalizing initial with
  | nil => exact h
  | cons acc rest ih =>
    rw [List.foldl_cons]
    exact ih (addDefault initial acc) (nodup_keys_addDefault initial acc h)

theorem hasKey_foldl_applyTx (txs : List Transaction) (bal : BalMap) (a : String) :
    hasKey (txs.foldl applyTx bal) a = hasKey bal a := by
  induction txs generalizing bal with
  | nil => rfl
  | cons t rest ih => rw [List.foldl_cons, ih (applyTx bal t), hasKey_applyTx]

-- ### String prefixes

theorem startswith_empty (m : String) (hm : m ≠ "") : startswith "" m = false := by
  unfold startswith
  cases m with
  | mk l =>
    cases l with
    | nil => exact absurd rfl hm
    | cons c cs => rfl

theorem startswith_of_last_paid (sip : SIP) (today : String) :
    ({ sip with last_paid := today } : SIP).last_paid = today := rfl

-- ### List indexing after `set`

theorem get?_set_self {α : Type} (l : List α) (i : Nat) (s x : α)
    (h : l.get? i = some s) : (l.set i x).get? i = some x := by
  induction l generalizing i with
  | nil => simp [List.get?] at h
  | cons a rest ih =>
    cases i with
    | zero => rfl
    | succ n => exact ih n h

-- ### Manage Accounts invariants

theorem addAccount_nodup (d : Document) (new : String)
    (h : d.accounts.Nodup) : (addAccount d new).accounts.Nodup := by
  unfold addAccount
  split
  · rename_i hc
    simp only []
    rw [List.nodup_append]
    exact ⟨h, List.nodup_singleton new, by simpa [List.disjoint_singleton] using hc.2⟩
  · exact h

theorem addAccount_mem (d : Document) (new a : String)
    (h : a ∈ (addAccount d new).accounts) :
    a ∈ d.accounts ∨ (a = new ∧ new ≠ "") := by
  unfold addAccount at h
  split at h
  · rename_i hc
    simp only [List.mem_append, List.mem_singleton] at h
    cases h with
    | inl h1 => exact Or.inl h1
    | inr h2 => exact Or.inr ⟨h2, hc.1⟩
  · exact Or.inl h

theorem foldl_addAccount_invariant (news : List String) (d : Document)
    (h : d.accounts.Nodup) :
    (news.foldl addAccount d).accounts.Nodup
    ∧ ∀ a, a ∈ (news.foldl addAccount d).accounts →
        a ∈ d.accounts ∨ (a ≠ "" ∧ a ∈ news) := by
  induction news generalizing d with
  | nil => exact ⟨h, fun a ha => Or.inl ha⟩
  | cons n rest ih =>
    rw [List.foldl_cons]
    obtain ⟨hnd, hmem⟩ := ih (addAccount d n) (addAccount_nodup d n h)
    refine ⟨hnd, fun a ha => ?_⟩
    cases hmem a ha with
    | inl h1 =>
      cases addAccount_mem d n a h1 with
      | inl h2 => exact Or.inl h2
      | inr h2 => exact Or.inr ⟨h2.1 ▸ h2.2, h2.1 ▸ List.mem_cons_self n rest⟩
    | inr h2 => exact Or.inr ⟨h2.1, List.mem_cons_of_mem n h2.2⟩

-- ### Claim theorems

/-- C1: `get_current_balances` starts from `initial_balances`, defaults
every configured account not already present to `0`, and folds the
transactions, each leg applied only when the referenced account is a key of
the balance map: for every account `a` present in the starting dict the
result holds the starting value plus the sum of the signed contributions
(Income credits `to_account`, Expense debits `from_account`, Transfer
debits `from_account` and credits `to_account`, Investment debits
`from_account`).  In particular, for accounts `{A}`, initial balance
`{A: 100}` and transactions `[Income 50 → A, Expense 30 from A]` the result
is `{A: 120}`. -/
theorem claim1_compute_balances :
    (∀ (accounts : List String) (initial : BalMap) (txs : List Transaction) (a : String),
      hasKey (initBalances initial accounts) a = true →
      lookupBal (get_current_balances accounts initial txs) a
        = lookupBal (initBalances initial accounts) a
          + (txs.map (fun t => contrib t a)).sum)
    ∧ get_current_balances ["A"] [("A", 100)] [incomeTxA, expenseTxA] = [("A", 120)] := by
  constructor
  · intro accounts initial txs a h
    exact lookup_foldl_applyTx txs (initBalances initial accounts) a h
  · simp [get_current_balances, initBalances, addDefault, hasKey, applyTx, creditLeg,
      upd, updEntry, incomeTxA, expenseTxA, mkIncomeTx, mkExpenseTx]
    norm_num

/-- Witness for C1 at the concrete scenario input. -/
theorem claim1_compute_balances_witness :
    hasKey (initBalances [("A", (100 : ℚ))] ["A"]) "A" = true
    ∧ lookupBal (get_current_balances ["A"] [("A", 100)] [incomeTxA, expenseTxA]) "A"
        = lookupBal (initBalances [("A", 100)] ["A"]) "A"
          + ([incomeTxA, expenseTxA].map (fun t => contrib t "A")).sum :=
  ⟨by decide,
   claim1_compute_balances.1 ["A"] [("A", 100)] [incomeTxA, expenseTxA] "A" (by decide)⟩

/-- C2: `get_current_balances` returns the same balance map when the
transaction list is replaced by any permutation of itself. -/
theorem claim2_perm_invariant :
    ∀ (accounts : List String) (initial : BalMap) (txs1 txs2 : List Transaction),
      txs1.Perm txs2 →
      get_current_balances accounts initial txs1
        = get_current_balances accounts initial txs2 :=
  fun _ initial _ _ h => foldl_applyTx_perm h (initBalances initial _)

/-- Witness for C2: swapping the two scenario transactions. -/
theorem claim2_perm_invariant_witness :
    ([expenseTxA, incomeTxA].Perm [incomeTxA, expenseTxA])
    ∧ get_current_balances ["A"] [("A", 100)] [expenseTxA, incomeTxA]
        = get_current_balances ["A"] [("A", 100)] [incomeTxA, expenseTxA] :=
  ⟨List.Perm.swap incomeTxA expenseTxA [],
   claim2_perm_invariant ["A"] [("A", 100)] _ _ (List.Perm.swap incomeTxA expenseTxA [])⟩

/-- C3: a Transfer whose `from_account` is a key of the balance map but
whose `to_account` is not applies only the debit leg: the source account
decreases by the amount, the target account does not appear in the result,
and the total of all balances decreases by the amount. -/
theorem claim3_transfer_missing_credit :
    ∀ (accounts : List String) (initial : BalMap) (A B date : String) (amt : ℚ),
      (initial.map Prod.fst).Nodup →
      hasKey (initBalances initial accounts) A = true →
      hasKey (initBalances initial accounts) B = false →
      lookupBal (get_current_balances accounts initial [mkTransferTx date amt A B]) A
        = lookupBal (initBalances initial accounts) A - amt
      ∧ hasKey (get_current_balances accounts initial [mkTransferTx date amt A B]) B = false
      ∧ sumBal (get_current_balances accounts initial [mkTransferTx date amt A B])
          = sumBal (initBalances initial accounts) - amt := by
  intro accounts initial A B date amt hnd hA hB
  have e : get_current_balances accounts initial [mkTransferTx date amt A B]
      = upd (initBalances initial accounts) A (-amt) := by
    show applyTx (initBalances initial accounts) (mkTransferTx date amt A B) = _
    rw [applyTx_eq]
    show upd (upd (initBalances initial accounts) A (-amt)) B amt = _
    exact upd_neg _ B amt (by rw [hasKey_upd]; simp [hB])
  refine ⟨?_, ?_, ?_⟩
  · rw [e, lookup_upd_self _ _ _ hA]; ring
  · rw [e, hasKey_upd]; exact hB
  · rw [e, sumBal_upd _ _ _ (nodup_keys_initBalances initial accounts hnd) hA]; ring

/-- Witness for C3: transfer of 20 from `A` to the absent account `B`. -/
theorem claim3_transfer_missing_credit_witness :
    ([("A", (100 : ℚ))].map Prod.fst).Nodup
    ∧ hasKey (initBalances [("A", 100)] ["A"]) "A" = true
    ∧ hasKey (initBalances [("A", 100)] ["A"]) "B" = false
    ∧ (lookupBal (get_current_balances ["A"] [("A", 100)] [mkTransferTx "2024-01-03" 20 "A" "B"]) "A"
          = lookupBal (initBalances [("A", 100)] ["A"]) "A" - 20
       ∧ hasKey (get_current_balances ["A"] [("A", 100)] [mkTransferTx "2024-01-03" 20 "A" "B"]) "B" = false
       ∧ sumBal (get_current_balances ["A"] [("A", 100)] [mkTransferTx "2024-01-03" 20 "A" "B"])
          = sumBal (initBalances [("A", 100)] ["A"]) - 20) :=
  ⟨by decide, by decide, by decide,
   claim3_transfer_missing_credit ["A"] [("A", 100)] "A" "B" "2024-01-03" 20
     (by decide) (by decide) (by decide)⟩

/-- C4: the three budget amounts `I × weight` over the weights
`{Needs: 0.50, Wants: 0.30, Savings: 0.20}` sum exactly to `I`. -/
theorem claim4_budget_sum :
    ∀ I : ℚ, (rules.map (fun r => budget I r.2)).sum = I := by
  intro I
  simp [rules, budget]
  ring_nf

/-- C5: with an empty transaction list every aggregation total is `0` and
`get_current_balances` is exactly `initial_balances` merged with
zero-defaults for the configured accounts: values are those of
`initial_balances` and the key set is its keys union the accounts list. -/
theorem claim5_empty_transactions :
    (total_by_type TType.Income [] = 0
      ∧ total_by_type TType.Expense [] = 0
      ∧ total_by_type TType.Investment [] = 0)
    ∧ (∀ (accounts : List String) (initial : BalMap),
        get_current_balances accounts initial [] = initBalances initial accounts)
    ∧ (∀ (accounts : List String) (initial : BalMap) (a : String),
        lookupBal (get_current_balances accounts initial []) a = lookupBal initial a)
    ∧ (∀ (accounts : List String) (initial : BalMap) (a : String),
        hasKey (get_current_balances accounts initial []) a
          = (hasKey initial a || decide (a ∈ accounts))) :=
  ⟨⟨rfl, rfl, rfl⟩,
   fun _ _ => rfl,
   fun accounts initial a => lookup_initBalances initial accounts a,
   fun accounts initial a => hasKey_initBalances initial accounts a⟩

/-- C6: a SIP is due for the current month exactly when `last_paid` does
not start with the year-month prefix; a SIP with empty `last_paid` is due
in every (non-empty) month; after "Pay Now" runs on a day of month
`2024-05`, the stored `last_paid` starts with `"2024-05"`, so the SIP is
no longer due for `2024-05` and is due again for any month that is not a
prefix of the stamped date. -/
theorem claim6_sip_due :
    (∀ (sip : SIP) (month : String), sip.last_paid = "" → month ≠ "" →
        is_due month sip = true)
    ∧ (∀ (d : Document) (i : Nat) (sip : SIP) (today : String),
        d.sips.get? i = some sip → startswith today "2024-05" = true →
        (paySip d i today).sips.get? i = some { sip with last_paid := today }
        ∧ startswith ({ sip with last_paid := today } : SIP).last_paid "2024-05" = true
        ∧ is_due "2024-05" ({ sip with last_paid := today } : SIP) = false
        ∧ ∀ m : String, startswith today m = false →
            is_due m ({ sip with last_paid := today } : SIP) = true) := by
  constructor
  · intro sip month h hm
    unfold is_due is_paid
    rw [h, startswith_empty month hm]
    rfl
  · intro d i sip today hget hs
    have hget2 : d.sips[i]? = some sip := by
      rw [← List.get?_eq_getElem?]
      exact hget
    have hset : (paySip d i today).sips
        = d.sips.set i { sip with last_paid := today } := by
      simp [paySip, hget2]
    refine ⟨?_, ?_, ?_, ?_⟩
    · rw [hset]
      exact get?_set_self d.sips i sip _ hget
    · exact hs
    · unfold is_due is_paid
      rw [startswith_of_last_paid, hs]
      rfl
    · intro m hm
      unfold is_due is_paid
      rw [startswith_of_last_paid, hm]
      rfl

/-- Witness for C6: `sip0` (never paid) is due in `2024-07`; paying it on
`2024-05-15` stamps `last_paid`, removes it from the due list for
`2024-05`, and it is due again in `2024-06`. -/
theorem claim6_sip_due_witness :
    (sip0.last_paid = "" ∧ ("2024-07" : String) ≠ "" ∧ is_due "2024-07" sip0 = true)
    ∧ (doc0.sips.get? 0 = some sip0
       ∧ startswith "2024-05-15" "2024-05" = true
       ∧ (paySip doc0 0 "2024-05-15").sips.get? 0
           = some { sip0 with last_paid := "2024-05-15" }
       ∧ is_due "2024-05" ({ sip0 with last_paid := "2024-05-15" } : SIP) = false
       ∧ startswith "2024-05-15" "2024-06" = false
       ∧ is_due "2024-06" ({ sip0 with last_paid := "2024-05-15" } : SIP) = true) := by
  have h2 := claim6_sip_due.2 doc0 0 sip0 "2024-05-15" rfl (by decide)
  exact ⟨⟨rfl, by decide, claim6_sip_due.1 sip0 "2024-07" rfl (by decide)⟩,
    rfl, by decide, h2.1, h2.2.2.1, by decide, h2.2.2.2 "2024-06" (by decide)⟩

/-- C7: saving a document and reloading it (with no external mutation of
the stored file in between) yields a field-for-field identical document. -/
theorem claim7_roundtrip : ∀ d : Document, load_data (save_data d) = d :=
  fun _ => rfl

/-- C8 counterexample: `save_data` contains no `try`/`except`, so at this
concrete input the failing persist call surfaces as the raised error — the
application code does not catch it and turn it into a handled outcome,
refuting "the failure is caught". -/
theorem claim8_save_failure_counterexample :
    (savePnl_and_persist (WriteOutcome.fail "disk full") default_doc
        "2024-05-01" "Loss 🔴" 100 "note").2 = Except.error "disk full"
    ∧ ¬((savePnl_and_persist (WriteOutcome.fail "disk full") default_doc
        "2024-05-01" "Loss 🔴" 100 "note").2
          = Except.ok (save_data (savePnl default_doc "2024-05-01" "Loss 🔴" 100 "note"))) :=
  ⟨rfl, fun h => Except.noConfusion h⟩

/-- C8 amended: when the persist (`save_data`) call fails, the failure is
not caught by the application code — the exception propagates out of the
mutation (to the surrounding UI framework) — while the in-memory document
is left unchanged (not rolled back), still carrying the appended, unsaved
entry. -/
theorem claim8_unsaved_delta :
    ∀ (d : Document) (date pnl_type notes msg : String) (amount : ℚ),
      (savePnl_and_persist (WriteOutcome.fail msg) d date pnl_type amount notes).2
          = Except.error msg
      ∧ (savePnl_and_persist (WriteOutcome.fail msg) d date pnl_type amount notes).1
          = savePnl d date pnl_type amount notes
      ∧ (savePnl_and_persist (WriteOutcome.fail msg) d date pnl_type amount notes).1.trading_pnl
          = d.trading_pnl ++ [mkTradeEntry date pnl_type amount notes] :=
  fun _ _ _ _ _ _ => ⟨rfl, rfl, rfl⟩

/-- C9: the Save P&L mutation appends one entry whose amount is the entered
non-negative amount for "Profit 🟢" and its negation for "Loss 🔴",
carrying the entry date, the notes, and the broker fixed to `"Zerodha"`. -/
theorem claim9_trading_entry :
    ∀ (date pnl_type notes : String) (amount : ℚ), 0 ≤ amount →
      (mkTradeEntry date pnl_type amount notes).date = date
      ∧ (mkTradeEntry date pnl_type amount notes).notes = notes
      ∧ (mkTradeEntry date pnl_type amount notes).broker = "Zerodha"
      ∧ (pnl_type = "Profit 🟢" →
          (mkTradeEntry date pnl_type amount notes).amount = amount
          ∧ 0 ≤ (mkTradeEntry date pnl_type amount notes).amount)
      ∧ (pnl_type = "Loss 🔴" →
          (mkTradeEntry date pnl_type amount notes).amount = -amount
          ∧ (mkTradeEntry date pnl_type amount notes).amount ≤ 0)
      ∧ (∀ d : Document, (savePnl d date pnl_type amount notes).trading_pnl
          = d.trading_pnl ++ [mkTradeEntry date pnl_type amount notes]) := by
  intro date pnl_type notes amount h
  refine ⟨rfl, rfl, rfl, ?_, ?_, fun d => rfl⟩
  · intro hp
    refine ⟨by simp [mkTradeEntry, hp], ?_⟩
    simpa [mkTradeEntry, hp] using h
  · intro hl
    have hne : ¬pnl_type = "Profit 🟢" := by rw [hl]; decide
    refine ⟨by simp [mkTradeEntry, hne], ?_⟩
    simpa [mkTradeEntry, hne] using h

/-- Witness for C9: a loss of 250 is stored as `-250` with the fixed
broker. -/
theorem claim9_trading_entry_witness :
    (0 : ℚ) ≤ 250
    ∧ (mkTradeEntry "2024-05-01" "Loss 🔴" 250 "mcx").broker = "Zerodha"
    ∧ (mkTradeEntry "2024-05-01" "Loss 🔴" 250 "mcx").amount = -250 := by
  have h := claim9_trading_entry "2024-05-01" "Loss 🔴" "mcx" 250 (by norm_num)
  exact ⟨by norm_num, h.2.2.1, (h.2.2.2.2.1 rfl).1⟩

/-- C10: starting from the default document (whose starter accounts are
pairwise distinct), any sequence of add-account operations keeps the
accounts list pairwise distinct, and every entry is either a starter
account or a non-empty requested name. -/
theorem claim10_accounts_distinct :
    ∀ news : List String,
      (news.foldl addAccount default_doc).accounts.Nodup
      ∧ ∀ a, a ∈ (news.foldl addAccount default_doc).accounts →
          a ∈ default_doc.accounts ∨ (a ≠ "" ∧ a ∈ news) :=
  fun news => foldl_addAccount_invariant news default_doc (by decide)

/-- Witness for C10: adding `"HDFC"` (a duplicate, skipped) and `"Axis"`
(appended) keeps the list distinct. -/
theorem claim10_accounts_distinct_witness :
    "Axis" ∈ ((["HDFC", "Axis"].foldl addAccount default_doc).accounts)
    ∧ ((["HDFC", "Axis"].foldl addAccount default_doc).accounts.Nodup)
    ∧ ("Axis" ∈ default_doc.accounts ∨ ("Axis" ≠ "" ∧ "Axis" ∈ ["HDFC", "Axis"])) :=
  ⟨by decide, (claim10_accounts_distinct ["HDFC", "Axis"]).1,
   (claim10_accounts_distinct ["HDFC", "Axis"]).2 "Axis" (by decide)⟩

end FinanceTracker
